import Mathlib

/-!
Verification of `src/tools/tidy/src/style.rs`, the tidy style checker.

Lines and file contents are embedded as `List Char` (Rust `&str` viewed as a
character sequence; `line.chars().count()` is `List.length`).  The checker's
per-file pass is embedded as an explicit fold over the list of lines, with the
five suppression statuses, the leading/trailing blank-line counters and the
accumulated violation list threaded through a `ScanState`.
-/

namespace Style

/-- Characters of a string literal, the view the embedding works in. -/
def lit (s : String) : List Char := s.data

/-- Rust `char::is_whitespace`: the Unicode `White_Space` property. -/
def rustIsWhitespace (c : Char) : Bool :=
  c = '\u0020' || ('\u0009' ≤ c && c ≤ '\u000d') || c = '\u0085' || c = '\u00a0' ||
  c = '\u1680' || ('\u2000' ≤ c && c ≤ '\u200a') || c = '\u2028' || c = '\u2029' ||
  c = '\u202f' || c = '\u205f' || c = '\u3000'

/-- Helper for `splitWhitespace`: `acc` holds the current token reversed. -/
def splitWsGo : List Char → List Char → List (List Char)
  | [], acc => if acc.isEmpty then [] else [acc.reverse]
  | c :: rest, acc =>
    if rustIsWhitespace c then
      if acc.isEmpty then splitWsGo rest [] else acc.reverse :: splitWsGo rest []
    else splitWsGo rest (c :: acc)

/-- Rust `str::split_whitespace`: maximal runs of non-whitespace characters. -/
def splitWhitespace (l : List Char) : List (List Char) := splitWsGo l []

/-- Rust `str::split('\n')`: the segments between newline characters
(always at least one segment, possibly empty). -/
def splitOnNl : List Char → List (List Char)
  | [] => [[]]
  | c :: rest =>
    if c = '\n' then [] :: splitOnNl rest
    else
      match splitOnNl rest with
      | [] => [[c]]
      | l :: ls => (c :: l) :: ls

/-- Rust `str::contains(&str)` as an infix test on character lists. -/
def containsStr (hay needle : List Char) : Bool := decide (needle <:+: hay)

/-- Rust `str::starts_with(&str)`. -/
def startsWithStr (hay pre : List Char) : Bool := pre.isPrefixOf hay

/-- Rust `str::ends_with(&str)`. -/
def endsWithStr (hay suf : List Char) : Bool := suf.isSuffixOf hay

/-- The column limit `COLS` from the source. -/
def COLS : Nat := 100

/-- Parser states for `line_is_url` (`enum LIUState` in the source). -/
inductive LIUState
  | EXP_COMMENT_START
  | EXP_LINK_LABEL_OR_URL
  | EXP_URL
  | EXP_END
deriving DecidableEq

/-- One transition of the `line_is_url` state machine on one token;
`none` embeds the source's early `return false`.  The guards are the
source's match arms in order.  (The source tests `w.len() >= 4` in bytes;
on tokens that start with `[` and end with `]:` byte length ≥ 4 and
character count ≥ 4 coincide, since the only shorter candidate is `[]:`.) -/
def liuStep : LIUState → List Char → Option LIUState
  | .EXP_COMMENT_START, tok =>
    if tok = lit "//" ∨ tok = lit "///" ∨ tok = lit "//!" then
      some .EXP_LINK_LABEL_OR_URL
    else none
  | .EXP_LINK_LABEL_OR_URL, w =>
    if 4 ≤ w.length ∧ startsWithStr w (lit "[") = true ∧ endsWithStr w (lit "]:") = true then
      some .EXP_URL
    else if startsWithStr w (lit "http://") = true ∨ startsWithStr w (lit "https://") = true then
      some .EXP_END
    else none
  | .EXP_URL, w =>
    if startsWithStr w (lit "http://") = true ∨ startsWithStr w (lit "https://") = true ∨
        startsWithStr w (lit "../") = true then
      some .EXP_END
    else none
  | .EXP_END, _ => none

/-- Run the `line_is_url` machine over the remaining tokens. -/
def line_is_url_go : LIUState → List (List Char) → Bool
  | st, [] => decide (st = .EXP_END)
  | st, tok :: toks =>
    match liuStep st tok with
    | none => false
    | some st2 => line_is_url_go st2 toks

/-- `line_is_url` from the source: the token-level state machine applied to
the whitespace-split tokens of the line. -/
def line_is_url (line : List Char) : Bool :=
  line_is_url_go .EXP_COMMENT_START (splitWhitespace line)

/-- `long_line_is_ok` from the source: a long line is allowed exactly when
`line_is_url` accepts it. -/
def long_line_is_ok (line : List Char) : Bool :=
  if line_is_url line then true else false


/-- The fixed remediation message `UNEXPLAINED_IGNORE_DOCTEST_INFO` from the source. -/
def UNEXPLAINED_IGNORE_DOCTEST_INFO : List Char :=
  lit "unexplained \"```ignore\" doctest; try one:\n\n* make the test actually pass, by adding necessary imports and declarations, or\n* use \"```text\", if the code is not Rust code, or\n* use \"```compile_fail,Ennnn\", if the code is expected to fail at compile time, or\n* use \"```should_panic\", if the code is expected to fail at run time, or\n* use \"```no_run\", if the code should type-check but not necessary linkable/runnable, or\n* explain it like \"```ignore (cannot-test-this-because-xxxx)\", if the annotation cannot be avoided.\n\n"

/-- The fixed remediation message `LLVM_UNREACHABLE_INFO` from the source
(a raw string that begins with a literal backslash and newline). -/
def LLVM_UNREACHABLE_INFO : List Char :=
  lit "\\\nC++ code used llvm_unreachable, which triggers undefined behavior\nwhen executed when assertions are disabled.\nUse llvm::report_fatal_error for increased robustness."

/-- Suppression status `enum Directive` from the source. -/
inductive Directive
  | Deny
  | Ignore (used : Bool)
deriving DecidableEq

/-- The five suppressible check names. -/
inductive SuppKind
  | cr
  | tab
  | linelength
  | endWhitespace
  | copyright
deriving DecidableEq

/-- Rule kinds, tagging each reported violation with the rule that produced it. -/
inductive Kind
  | lineLength
  | tabChar
  | endWs
  | crChar
  | todo
  | xxx
  | copyright
  | doctest
  | llvm
  | emptyFile
  | leadingNl
  | missingNl
  | tooManyNl (n : Nat)
  | unusedIgnore (k : SuppKind)
deriving DecidableEq

/-- A reported violation: optional 1-based line number (`none` for file-level
messages), the rule kind, and the exact message text. -/
structure Viol where
  line : Option Nat
  kind : Kind
  msg : List Char
deriving DecidableEq

/-- The violations of one rule kind, in report order. -/
def violsOfKind (k : Kind) (vs : List Viol) : List Viol :=
  vs.filter (fun v => decide (v.kind = k))

/-- `contains_ignore_directive` from the source: a whole-file substring test
for `// ignore-tidy-<check>` or `# ignore-tidy-<check>`. -/
def contains_ignore_directive (contents chk : List Char) : Directive :=
  if containsStr contents (lit "// ignore-tidy-" ++ chk) = true ∨
      containsStr contents (lit "# ignore-tidy-" ++ chk) = true then
    Directive.Ignore false
  else Directive.Deny

/-- The `suppressible_tidy_err!` macro from the source: on `Deny` report the
violation, on `Ignore(_)` swallow it and flip the status to `Ignore(true)`. -/
def suppressible_tidy_err (skip : Directive) (v : Viol) : Directive × List Viol :=
  match skip with
  | .Deny => (.Deny, [v])
  | .Ignore _ => (.Ignore true, [])

/-- State threaded through the per-line loop of `check`: the five suppression
statuses, the blank-line counters and the violations reported so far. -/
structure ScanState where
  skipCr : Directive
  skipTab : Directive
  skipLength : Directive
  skipEndWs : Directive
  skipCopyright : Directive
  leadingNewLines : Bool
  trailingNewLines : Nat
  errs : List Viol
deriving DecidableEq

/-- Message of the line-length violation (`format!("line longer than {} chars", COLS)`). -/
def lenMsg : List Char := lit "line longer than " ++ (Nat.repr COLS).data ++ lit " chars"

/-- The line-length rule of `check`. -/
def lengthCheck (skip : Directive) (i : Nat) (line : List Char) : Directive × List Viol :=
  if COLS < line.length ∧ long_line_is_ok line = false then
    suppressible_tidy_err skip ⟨some (i + 1), .lineLength, lenMsg⟩
  else (skip, [])

/-- The tab-character rule of `check`. -/
def tabCheck (skip : Directive) (i : Nat) (line : List Char) : Directive × List Viol :=
  if line.contains '\t' then
    suppressible_tidy_err skip ⟨some (i + 1), .tabChar, lit "tab character"⟩
  else (skip, [])

/-- The trailing-whitespace rule of `check` (line ends with space or tab). -/
def endWsCheck (skip : Directive) (i : Nat) (line : List Char) : Directive × List Viol :=
  if endsWithStr line (lit " ") || endsWithStr line (lit "\t") then
    suppressible_tidy_err skip ⟨some (i + 1), .endWs, lit "trailing whitespace"⟩
  else (skip, [])

/-- The CR-character rule of `check`. -/
def crCheck (skip : Directive) (i : Nat) (line : List Char) : Directive × List Viol :=
  if line.contains '\r' then
    suppressible_tidy_err skip ⟨some (i + 1), .crChar, lit "CR character"⟩
  else (skip, [])

/-- The TODO and XXX rules of `check`, skipped for the checker's own source file. -/
def todoXxxCheck (fname : List Char) (i : Nat) (line : List Char) : List Viol :=
  if fname = lit "style.rs" then []
  else
    (if containsStr line (lit "TODO") then
      [⟨some (i + 1), .todo, lit "TODO is deprecated; use FIXME"⟩]
    else []) ++
    (if containsStr line (lit "//") && containsStr line (lit " XXX") then
      [⟨some (i + 1), .xxx, lit "XXX is deprecated; use FIXME"⟩]
    else [])

/-- The deprecated-copyright-notice rule of `check`. -/
def copyrightCheck (skip : Directive) (i : Nat) (line : List Char) : Directive × List Viol :=
  if (startsWithStr line (lit "// Copyright") || startsWithStr line (lit "# Copyright") ||
        startsWithStr line (lit "Copyright")) &&
      (containsStr line (lit "Rust Developers") ||
        containsStr line (lit "Rust Project Developers")) then
    suppressible_tidy_err skip
      ⟨some (i + 1), .copyright,
        lit "copyright notices attributed to the Rust Project Developers are deprecated"⟩
  else (skip, [])

/-- The unexplained-ignore-doctest rule of `check`; a hard error. -/
def doctestCheck (i : Nat) (line : List Char) : List Viol :=
  if endsWithStr line (lit "```ignore") || endsWithStr line (lit "```rust,ignore") then
    [⟨some (i + 1), .doctest, UNEXPLAINED_IGNORE_DOCTEST_INFO⟩]
  else []

/-- The `llvm_unreachable` rule of `check`; a hard error on `.cpp` files. -/
def llvmCheck (fname : List Char) (i : Nat) (line : List Char) : List Viol :=
  if endsWithStr fname (lit ".cpp") && containsStr line (lit "llvm_unreachable") then
    [⟨some (i + 1), .llvm, LLVM_UNREACHABLE_INFO⟩]
  else []

/-- The blank-line bookkeeping at the end of the per-line loop body. -/
def emptyTrack (i : Nat) (line : List Char) (lead : Bool) (trail : Nat) : Bool × Nat :=
  if line.isEmpty then ((if i = 0 then true else lead), trail + 1) else (lead, 0)

/-- One iteration of the per-line loop of `check`, in the source's rule order. -/
def checkLine (fname : List Char) (i : Nat) (line : List Char) (st : ScanState) : ScanState :=
  let pL := lengthCheck st.skipLength i line
  let pT := tabCheck st.skipTab i line
  let pW := endWsCheck st.skipEndWs i line
  let pC := crCheck st.skipCr i line
  let eTX := todoXxxCheck fname i line
  let pCp := copyrightCheck st.skipCopyright i line
  let eD := doctestCheck i line
  let eL := llvmCheck fname i line
  let tr := emptyTrack i line st.leadingNewLines st.trailingNewLines
  { skipCr := pC.1, skipTab := pT.1, skipLength := pL.1, skipEndWs := pW.1,
    skipCopyright := pCp.1,
    leadingNewLines := tr.1, trailingNewLines := tr.2,
    errs := st.errs ++ (pL.2 ++ pT.2 ++ pW.2 ++ pC.2 ++ eTX ++ pCp.2 ++ eD ++ eL) }

/-- The per-line loop of `check` over the remaining lines; `i` is the 0-based
index of the first line in `ls`. -/
def scanLines (fname : List Char) : List (List Char) → Nat → ScanState → ScanState
  | [], _, st => st
  | l :: ls, i, st => scanLines fname ls (i + 1) (checkLine fname i l st)

/-- The file-level trailing-newline report of `check`. -/
def trailingNlViols : Nat → List Viol
  | 0 => [⟨none, .missingNl, lit "missing trailing newline"⟩]
  | 1 => []
  | n => [⟨none, .tooManyNl n,
      lit "too many trailing newlines (" ++ (Nat.repr n).data ++ lit ")"⟩]

/-- The end-of-file "ignoring X unnecessarily" violation for each check. -/
def auditViol : SuppKind → Viol
  | .cr => ⟨none, .unusedIgnore .cr, lit "ignoring CR characters unnecessarily"⟩
  | .tab => ⟨none, .unusedIgnore .tab, lit "ignoring tab characters unnecessarily"⟩
  | .linelength => ⟨none, .unusedIgnore .linelength, lit "ignoring line length unnecessarily"⟩
  | .endWhitespace =>
    ⟨none, .unusedIgnore .endWhitespace, lit "ignoring trailing whitespace unnecessarily"⟩
  | .copyright => ⟨none, .unusedIgnore .copyright, lit "ignoring copyright unnecessarily"⟩

/-- End-of-file audit of one suppression status: report only `Ignore(false)`. -/
def auditOne (d : Directive) (k : SuppKind) : List Viol :=
  match d with
  | .Ignore false => [auditViol k]
  | _ => []

/-- The five initial suppression statuses of one file. -/
structure Supp where
  cr : Directive
  tab : Directive
  linelength : Directive
  endWhitespace : Directive
  copyright : Directive
deriving DecidableEq

/-- Initial per-file scan state from given suppression statuses. -/
def initSt (s : Supp) : ScanState :=
  ⟨s.cr, s.tab, s.linelength, s.endWhitespace, s.copyright, false, 0, []⟩

/-- The reports emitted after the per-line loop, from the final scan state:
the leading-newline and trailing-newline reports and the five suppression
audits, in the source's order (preceded by the per-line reports themselves). -/
def fileEndViols (st : ScanState) : List Viol :=
  st.errs ++
  (if st.leadingNewLines then [⟨none, .leadingNl, lit "leading newline"⟩] else []) ++
  trailingNlViols st.trailingNewLines ++
  (auditOne st.skipCr .cr ++ auditOne st.skipTab .tab ++
   auditOne st.skipLength .linelength ++ auditOne st.skipEndWs .endWhitespace ++
   auditOne st.skipCopyright .copyright)

/-- The body of `check` for one file, with the five suppression statuses as
parameters; reports appear in the source's order: the empty-file check, the
per-line reports, the leading-newline and trailing-newline reports, then the
five suppression audits. -/
def check_file_with (fname contents : List Char) (s : Supp) : List Viol :=
  (if contents.isEmpty then [⟨none, .emptyFile, lit "empty file"⟩] else []) ++
  fileEndViols (scanLines fname (splitOnNl contents) 0 (initSt s))

/-- The five suppression statuses scanned from the file contents, as in `check`. -/
def suppOf (contents : List Char) : Supp :=
  ⟨contains_ignore_directive contents (lit "cr"),
   contains_ignore_directive contents (lit "tab"),
   contains_ignore_directive contents (lit "linelength"),
   contains_ignore_directive contents (lit "end-whitespace"),
   contains_ignore_directive contents (lit "copyright")⟩

/-- The body of `check` for one file: everything it reports for that file. -/
def check_file (fname contents : List Char) : List Viol :=
  check_file_with fname contents (suppOf contents)

/-- The extension allowlist from `check`. -/
def extensions : List (List Char) :=
  [lit ".rs", lit ".py", lit ".js", lit ".sh", lit ".c", lit ".cpp", lit ".h"]

/-- The early-return filter of `check`: skip files with no recognized
extension and editor swap files. -/
def skipFile (fname : List Char) : Bool :=
  extensions.all (fun e => !(endsWithStr fname e)) || startsWithStr fname (lit ".#")

/-- A file handed to `check` by the walker: name and contents. -/
structure SrcFile where
  name : List Char
  contents : List Char

/-- Processing of one walked file: `tidy_error!` sets `bad` on every reported
violation, so after the file `bad` holds exactly when it held before or the
file produced at least one violation. -/
def walkStep (bad : Bool) (f : SrcFile) : Bool :=
  if skipFile f.name then bad
  else bad || !(check_file f.name f.contents).isEmpty

/-- `check` from the source over a walked sequence of files, tracking the
global `bad` flag. -/
def check (files : List SrcFile) (bad : Bool) : Bool :=
  files.foldl walkStep bad


/-- The violations the per-line loop body emits for one line, in source order. -/
def lineNew (fname : List Char) (i : Nat) (line : List Char) (st : ScanState) : List Viol :=
  (lengthCheck st.skipLength i line).2 ++ (tabCheck st.skipTab i line).2 ++
    (endWsCheck st.skipEndWs i line).2 ++ (crCheck st.skipCr i line).2 ++
    todoXxxCheck fname i line ++ (copyrightCheck st.skipCopyright i line).2 ++
    doctestCheck i line ++ llvmCheck fname i line

theorem checkLine_errs (fname : List Char) (i : Nat) (line : List Char) (st : ScanState) :
    (checkLine fname i line st).errs = st.errs ++ lineNew fname i line st := rfl

theorem checkLine_skipCr (fname : List Char) (i : Nat) (line : List Char) (st : ScanState) :
    (checkLine fname i line st).skipCr = (crCheck st.skipCr i line).1 := rfl

theorem checkLine_skipTab (fname : List Char) (i : Nat) (line : List Char) (st : ScanState) :
    (checkLine fname i line st).skipTab = (tabCheck st.skipTab i line).1 := rfl

theorem checkLine_skipLength (fname : List Char) (i : Nat) (line : List Char) (st : ScanState) :
    (checkLine fname i line st).skipLength = (lengthCheck st.skipLength i line).1 := rfl

theorem checkLine_skipEndWs (fname : List Char) (i : Nat) (line : List Char) (st : ScanState) :
    (checkLine fname i line st).skipEndWs = (endWsCheck st.skipEndWs i line).1 := rfl

theorem checkLine_skipCopyright (fname : List Char) (i : Nat) (line : List Char) (st : ScanState) :
    (checkLine fname i line st).skipCopyright = (copyrightCheck st.skipCopyright i line).1 := rfl

theorem checkLine_lead (fname : List Char) (i : Nat) (line : List Char) (st : ScanState) :
    (checkLine fname i line st).leadingNewLines =
      (emptyTrack i line st.leadingNewLines st.trailingNewLines).1 := rfl

theorem checkLine_trail (fname : List Char) (i : Nat) (line : List Char) (st : ScanState) :
    (checkLine fname i line st).trailingNewLines =
      (emptyTrack i line st.leadingNewLines st.trailingNewLines).2 := rfl

theorem suppressible_kinds (s : Directive) (v : Viol) :
    ∀ w ∈ (suppressible_tidy_err s v).2, w = v := by
  cases s <;> simp [suppressible_tidy_err]

theorem lengthCheck_kinds (s : Directive) (i : Nat) (l : List Char) :
    ∀ v ∈ (lengthCheck s i l).2, v.kind = Kind.lineLength := by
  unfold lengthCheck
  split
  · intro v hv
    have := suppressible_kinds s _ v hv
    simp [this]
  · simp

theorem tabCheck_kinds (s : Directive) (i : Nat) (l : List Char) :
    ∀ v ∈ (tabCheck s i l).2, v.kind = Kind.tabChar := by
  unfold tabCheck
  split
  · intro v hv
    have := suppressible_kinds s _ v hv
    simp [this]
  · simp

theorem endWsCheck_kinds (s : Directive) (i : Nat) (l : List Char) :
    ∀ v ∈ (endWsCheck s i l).2, v.kind = Kind.endWs := by
  unfold endWsCheck
  split
  · intro v hv
    have := suppressible_kinds s _ v hv
    simp [this]
  · simp

theorem crCheck_kinds (s : Directive) (i : Nat) (l : List Char) :
    ∀ v ∈ (crCheck s i l).2, v.kind = Kind.crChar := by
  unfold crCheck
  split
  · intro v hv
    have := suppressible_kinds s _ v hv
    simp [this]
  · simp

theorem copyrightCheck_kinds (s : Directive) (i : Nat) (l : List Char) :
    ∀ v ∈ (copyrightCheck s i l).2, v.kind = Kind.copyright := by
  unfold copyrightCheck
  split
  · intro v hv
    have := suppressible_kinds s _ v hv
    simp [this]
  · simp

theorem todoXxxCheck_kinds (fname : List Char) (i : Nat) (l : List Char) :
    ∀ v ∈ todoXxxCheck fname i l, v.kind = Kind.todo ∨ v.kind = Kind.xxx := by
  unfold todoXxxCheck
  split
  · simp
  · intro v hv
    rcases List.mem_append.1 hv with h | h <;> revert h <;> split <;> simp_all

theorem doctestCheck_kinds (i : Nat) (l : List Char) :
    ∀ v ∈ doctestCheck i l, v.kind = Kind.doctest := by
  unfold doctestCheck
  split <;> simp

theorem llvmCheck_kinds (fname : List Char) (i : Nat) (l : List Char) :
    ∀ v ∈ llvmCheck fname i l, v.kind = Kind.llvm := by
  unfold llvmCheck
  split <;> simp

/-- Whether a kind is produced by the per-line rules (as opposed to the
file-level reports). -/
def isLineKind : Kind → Bool
  | .lineLength | .tabChar | .endWs | .crChar | .todo | .xxx
  | .copyright | .doctest | .llvm => true
  | _ => false

theorem lineNew_kinds (fname : List Char) (i : Nat) (l : List Char) (st : ScanState) :
    ∀ v ∈ lineNew fname i l st, isLineKind v.kind = true := by
  intro v hv
  unfold lineNew at hv
  simp only [List.mem_append] at hv
  rcases hv with ((((((h | h) | h) | h) | h) | h) | h) | h
  · rw [lengthCheck_kinds _ _ _ v h]; rfl
  · rw [tabCheck_kinds _ _ _ v h]; rfl
  · rw [endWsCheck_kinds _ _ _ v h]; rfl
  · rw [crCheck_kinds _ _ _ v h]; rfl
  · rcases todoXxxCheck_kinds _ _ _ v h with h2 | h2 <;> rw [h2] <;> rfl
  · rw [copyrightCheck_kinds _ _ _ v h]; rfl
  · rw [doctestCheck_kinds _ _ v h]; rfl
  · rw [llvmCheck_kinds _ _ _ v h]; rfl


theorem violsOfKind_append (k : Kind) (a b : List Viol) :
    violsOfKind k (a ++ b) = violsOfKind k a ++ violsOfKind k b := by
  unfold violsOfKind
  exact List.filter_append _ _

theorem violsOfKind_of_all_ne (k : Kind) (vs : List Viol) (h : ∀ v ∈ vs, v.kind ≠ k) :
    violsOfKind k vs = [] := by
  refine List.filter_eq_nil_iff.mpr ?_
  intro v hv
  simp [h v hv]

theorem violsOfKind_of_all_eq (k : Kind) (vs : List Viol) (h : ∀ v ∈ vs, v.kind = k) :
    violsOfKind k vs = vs := by
  refine List.filter_eq_self.mpr ?_
  intro v hv
  simp [h v hv]

theorem violsOfKind_lineNew_of_not_line (k : Kind) (hk : isLineKind k = false)
    (fname : List Char) (i : Nat) (l : List Char) (st : ScanState) :
    violsOfKind k (lineNew fname i l st) = [] := by
  refine violsOfKind_of_all_ne k _ ?_
  intro v hv he
  have h2 := lineNew_kinds fname i l st v hv
  rw [he] at h2
  rw [hk] at h2
  exact Bool.false_ne_true h2

theorem violsOfKind_lineNew_tab (fname : List Char) (i : Nat) (l : List Char) (st : ScanState) :
    violsOfKind Kind.tabChar (lineNew fname i l st) = (tabCheck st.skipTab i l).2 := by
  unfold lineNew
  repeat rw [violsOfKind_append]
  rw [violsOfKind_of_all_eq _ _ (tabCheck_kinds _ _ _)]
  rw [violsOfKind_of_all_ne _ _ (fun v hv => by simp [lengthCheck_kinds _ _ _ v hv])]
  rw [violsOfKind_of_all_ne _ _ (fun v hv => by simp [endWsCheck_kinds _ _ _ v hv])]
  rw [violsOfKind_of_all_ne _ _ (fun v hv => by simp [crCheck_kinds _ _ _ v hv])]
  rw [violsOfKind_of_all_ne _ _
    (fun v hv => by rcases todoXxxCheck_kinds _ _ _ v hv with h | h <;> simp [h])]
  rw [violsOfKind_of_all_ne _ _ (fun v hv => by simp [copyrightCheck_kinds _ _ _ v hv])]
  rw [violsOfKind_of_all_ne _ _ (fun v hv => by simp [doctestCheck_kinds _ _ v hv])]
  rw [violsOfKind_of_all_ne _ _ (fun v hv => by simp [llvmCheck_kinds _ _ _ v hv])]
  simp

theorem violsOfKind_lineNew_length (fname : List Char) (i : Nat) (l : List Char)
    (st : ScanState) :
    violsOfKind Kind.lineLength (lineNew fname i l st) = (lengthCheck st.skipLength i l).2 := by
  unfold lineNew
  repeat rw [violsOfKind_append]
  rw [violsOfKind_of_all_eq _ _ (lengthCheck_kinds _ _ _)]
  rw [violsOfKind_of_all_ne _ _ (fun v hv => by simp [tabCheck_kinds _ _ _ v hv])]
  rw [violsOfKind_of_all_ne _ _ (fun v hv => by simp [endWsCheck_kinds _ _ _ v hv])]
  rw [violsOfKind_of_all_ne _ _ (fun v hv => by simp [crCheck_kinds _ _ _ v hv])]
  rw [violsOfKind_of_all_ne _ _
    (fun v hv => by rcases todoXxxCheck_kinds _ _ _ v hv with h | h <;> simp [h])]
  rw [violsOfKind_of_all_ne _ _ (fun v hv => by simp [copyrightCheck_kinds _ _ _ v hv])]
  rw [violsOfKind_of_all_ne _ _ (fun v hv => by simp [doctestCheck_kinds _ _ v hv])]
  rw [violsOfKind_of_all_ne _ _ (fun v hv => by simp [llvmCheck_kinds _ _ _ v hv])]
  simp

theorem scan_errs_filter_not_line (k : Kind) (hk : isLineKind k = false) (fname : List Char) :
    ∀ (ls : List (List Char)) (i : Nat) (st : ScanState),
      violsOfKind k (scanLines fname ls i st).errs = violsOfKind k st.errs := by
  intro ls
  induction ls with
  | nil => intro i st; rfl
  | cons l ls ih =>
    intro i st
    rw [scanLines, ih, checkLine_errs, violsOfKind_append,
      violsOfKind_lineNew_of_not_line k hk, List.append_nil]

theorem tabCheck_ignore (b : Bool) (i : Nat) (l : List Char) :
    tabCheck (Directive.Ignore b) i l = (Directive.Ignore (b || l.contains '\t'), []) := by
  unfold tabCheck suppressible_tidy_err
  by_cases h : '\t' ∈ l <;> simp [h]

theorem scan_tab (fname : List Char) :
    ∀ (ls : List (List Char)) (i : Nat) (st : ScanState) (b : Bool),
      st.skipTab = Directive.Ignore b →
      (scanLines fname ls i st).skipTab =
          Directive.Ignore (b || ls.any (fun l => l.contains '\t')) ∧
        violsOfKind Kind.tabChar (scanLines fname ls i st).errs =
          violsOfKind Kind.tabChar st.errs := by
  intro ls
  induction ls with
  | nil => intro i st b h; simp [scanLines, h]
  | cons l ls ih =>
    intro i st b h
    rw [scanLines]
    have htab : (checkLine fname i l st).skipTab =
        Directive.Ignore (b || l.contains '\t') := by
      rw [checkLine_skipTab, h, tabCheck_ignore]
    obtain ⟨h1, h2⟩ := ih (i + 1) (checkLine fname i l st) _ htab
    refine ⟨?_, ?_⟩
    · rw [h1, List.any_cons, Bool.or_assoc]
    · rw [h2, checkLine_errs, violsOfKind_append, violsOfKind_lineNew_tab, h,
        tabCheck_ignore, List.append_nil]

theorem scan_errs_mono (fname : List Char) :
    ∀ (ls : List (List Char)) (i : Nat) (st : ScanState) (v : Viol),
      v ∈ st.errs → v ∈ (scanLines fname ls i st).errs := by
  intro ls
  induction ls with
  | nil => intro i st v hv; exact hv
  | cons l ls ih =>
    intro i st v hv
    rw [scanLines]
    exact ih (i + 1) _ v (by rw [checkLine_errs]; exact List.mem_append_left _ hv)

theorem scan_mem_of_line (fname : List Char) (g : Nat → List Char → List Viol)
    (hg : ∀ (i : Nat) (l : List Char) (st : ScanState) (v : Viol),
        v ∈ g i l → v ∈ lineNew fname i l st) :
    ∀ (ls : List (List Char)) (j i : Nat) (st : ScanState) (l : List Char),
      ls.get? j = some l → ∀ v ∈ g (i + j) l, v ∈ (scanLines fname ls i st).errs := by
  intro ls
  induction ls with
  | nil => intro j i st l hl; simp at hl
  | cons hd tl ih =>
    intro j i st l hl v hv
    cases j with
    | zero =>
      rw [List.get?_cons_zero] at hl
      injection hl with hl2
      subst hl2
      simp only [Nat.add_zero] at hv
      rw [scanLines]
      refine scan_errs_mono fname tl (i + 1) _ v ?_
      rw [checkLine_errs]
      exact List.mem_append_right _ (hg i _ st v hv)
    | succ j =>
      rw [List.get?_cons_succ] at hl
      rw [scanLines]
      have hadd : i + (j + 1) = (i + 1) + j := by omega
      rw [hadd] at hv
      exact ih j (i + 1) _ l hl v hv


theorem scan_errs_filter (p : Viol → Bool)
    (hp : ∀ v : Viol, isLineKind v.kind = true → p v = false) (fname : List Char) :
    ∀ (ls : List (List Char)) (i : Nat) (st : ScanState),
      (scanLines fname ls i st).errs.filter p = st.errs.filter p := by
  intro ls
  induction ls with
  | nil => intro i st; rfl
  | cons l ls ih =>
    intro i st
    rw [scanLines, ih, checkLine_errs, List.filter_append]
    have h2 : (lineNew fname i l st).filter p = [] := by
      refine List.filter_eq_nil_iff.mpr ?_
      intro v hv
      rw [hp v (lineNew_kinds fname i l st v hv)]
      simp
    rw [h2, List.append_nil]

/-- The blank-line counters over the remaining lines, standalone. -/
def trackAll : List (List Char) → Nat → Bool → Nat → Bool × Nat
  | [], _, lead, trail => (lead, trail)
  | l :: ls, i, lead, trail =>
    trackAll ls (i + 1) (emptyTrack i l lead trail).1 (emptyTrack i l lead trail).2

theorem scan_track (fname : List Char) :
    ∀ (ls : List (List Char)) (i : Nat) (st : ScanState),
      (scanLines fname ls i st).leadingNewLines =
          (trackAll ls i st.leadingNewLines st.trailingNewLines).1 ∧
        (scanLines fname ls i st).trailingNewLines =
          (trackAll ls i st.leadingNewLines st.trailingNewLines).2 := by
  intro ls
  induction ls with
  | nil => intro i st; exact ⟨rfl, rfl⟩
  | cons l ls ih =>
    intro i st
    rw [scanLines, trackAll]
    have := ih (i + 1) (checkLine fname i l st)
    rwa [checkLine_lead, checkLine_trail] at this

/-- The length of the run of consecutive empty final segments of a segment
list (the count the claims speak about). -/
def trailingEmptyRun : List (List Char) → Nat
  | [] => 0
  | l :: ls =>
    if l.isEmpty && ls.all (fun x => x.isEmpty) then ls.length + 1 else trailingEmptyRun ls

theorem trailingEmptyRun_of_all (ls : List (List Char))
    (h : ls.all (fun x => x.isEmpty) = true) : trailingEmptyRun ls = ls.length := by
  induction ls with
  | nil => rfl
  | cons l ls ih =>
    rw [List.all_cons, Bool.and_eq_true] at h
    rw [trailingEmptyRun, if_pos (by rw [h.1, h.2]; rfl), List.length_cons]

theorem trackAll_trail :
    ∀ (ls : List (List Char)) (i : Nat) (lead : Bool) (trail : Nat),
      (trackAll ls i lead trail).2 =
        if ls.all (fun x => x.isEmpty) = true then trail + ls.length
        else trailingEmptyRun ls := by
  intro ls
  induction ls with
  | nil => intro i lead trail; simp [trackAll]
  | cons l ls ih =>
    intro i lead trail
    rw [trackAll]
    by_cases hl : l.isEmpty = true
    · have he : emptyTrack i l lead trail =
          ((if i = 0 then true else lead), trail + 1) := by
        unfold emptyTrack
        rw [if_pos hl]
      rw [he]
      simp only
      rw [ih]
      by_cases hall : ls.all (fun x => x.isEmpty) = true
      · rw [if_pos hall, if_pos (by rw [List.all_cons, hl, hall]; rfl), List.length_cons]
        omega
      · rw [if_neg hall, if_neg (by rw [List.all_cons]; simp [hall]),
          trailingEmptyRun, if_neg (by simp [hall])]
    · have he : emptyTrack i l lead trail = (lead, 0) := by
        unfold emptyTrack
        rw [if_neg hl]
      rw [he]
      simp only
      rw [ih]
      have hcons : ((l :: ls).all (fun x => x.isEmpty) = true) = False := by
        simp [List.all_cons, hl]
      by_cases hall : ls.all (fun x => x.isEmpty) = true
      · rw [if_pos hall, if_neg (by simp [List.all_cons, hl]), Nat.zero_add,
          trailingEmptyRun, if_neg (by simp [hl]), trailingEmptyRun_of_all ls hall]
      · rw [if_neg hall, if_neg (by simp [List.all_cons, hl]),
          trailingEmptyRun, if_neg (by simp [hl])]

/-- Whether a kind is one of the two trailing-newline reports. -/
def isTrailingNlKind : Kind → Bool
  | .missingNl => true
  | .tooManyNl _ => true
  | _ => false

/-- The trailing-newline violations among a report list. -/
def trailingViolsOf (vs : List Viol) : List Viol :=
  vs.filter (fun v => isTrailingNlKind v.kind)

theorem lineKind_not_trailing (k : Kind) (h : isLineKind k = true) :
    isTrailingNlKind k = false := by
  cases k <;> first | rfl | exact absurd h (by simp [isLineKind])

theorem trailing_trailingNlViols (n : Nat) :
    trailingViolsOf (trailingNlViols n) = trailingNlViols n := by
  match n with
  | 0 => rfl
  | 1 => rfl
  | (m + 2) => rfl


theorem auditOne_kinds (d : Directive) (k : SuppKind) :
    ∀ v ∈ auditOne d k, v.kind = Kind.unusedIgnore k := by
  rcases d with _ | b
  · simp [auditOne]
  · cases b
    · intro v hv
      simp [auditOne] at hv
      subst hv
      cases k <;> rfl
    · simp [auditOne]

theorem filter_ite_singleton (p : Viol → Bool) (c : Prop) [Decidable c] (v : Viol)
    (h : p v = false) : (if c then [v] else []).filter p = [] := by
  split <;> simp [h]

theorem scan_trail_run (fname contents : List Char) (s : Supp) :
    (scanLines fname (splitOnNl contents) 0 (initSt s)).trailingNewLines =
      trailingEmptyRun (splitOnNl contents) := by
  have h := (scan_track fname (splitOnNl contents) 0 (initSt s)).2
  have hlead : (initSt s).leadingNewLines = false := rfl
  have htr : (initSt s).trailingNewLines = 0 := rfl
  rw [h, hlead, htr, trackAll_trail]
  by_cases hall : (splitOnNl contents).all (fun x => x.isEmpty) = true
  · rw [if_pos hall, trailingEmptyRun_of_all _ hall, Nat.zero_add]
  · rw [if_neg hall]

theorem check_file_with_trailing (fname contents : List Char) (s : Supp) :
    trailingViolsOf (check_file_with fname contents s) =
      trailingNlViols (trailingEmptyRun (splitOnNl contents)) := by
  unfold check_file_with fileEndViols
  unfold trailingViolsOf
  rw [List.filter_append, List.filter_append, List.filter_append, List.filter_append]
  rw [filter_ite_singleton _ _ _ rfl]
  have herrs : (scanLines fname (splitOnNl contents) 0 (initSt s)).errs.filter
      (fun v => isTrailingNlKind v.kind) = [] := by
    rw [scan_errs_filter (fun v => isTrailingNlKind v.kind)
      (fun v hv => lineKind_not_trailing v.kind hv) fname]
    rfl
  rw [herrs, filter_ite_singleton _ _ _ rfl]
  have haud : ∀ (d : Directive) (k : SuppKind),
      (auditOne d k).filter (fun v => isTrailingNlKind v.kind) = [] := by
    intro d k
    refine List.filter_eq_nil_iff.mpr ?_
    intro v hv
    rw [auditOne_kinds d k v hv]
    simp [isTrailingNlKind]
  rw [List.filter_append, List.filter_append, List.filter_append, List.filter_append]
  rw [haud, haud, haud, haud, haud]
  have hrun := scan_trail_run fname contents s
  rw [hrun]
  have := trailing_trailingNlViols (trailingEmptyRun (splitOnNl contents))
  unfold trailingViolsOf at this
  rw [this]
  simp

/-- C4: for every checked non-empty file, splitting the content on newline and
counting the run of consecutive empty final segments, a count of exactly 1
produces no trailing-newline violation; a count of 0 produces exactly one
missing-trailing-newline violation; and a count n ≥ 2 produces exactly one
too-many-trailing-newlines violation carrying the exact count n. -/
theorem claim_C4 (fname contents : List Char) (_hne : contents ≠ []) :
    (trailingEmptyRun (splitOnNl contents) = 1 →
      trailingViolsOf (check_file fname contents) = []) ∧
    (trailingEmptyRun (splitOnNl contents) = 0 →
      trailingViolsOf (check_file fname contents) =
        [⟨none, Kind.missingNl, lit "missing trailing newline"⟩]) ∧
    (∀ n : Nat, trailingEmptyRun (splitOnNl contents) = n → 2 ≤ n →
      trailingViolsOf (check_file fname contents) =
        [⟨none, Kind.tooManyNl n,
          lit "too many trailing newlines (" ++ (Nat.repr n).data ++ lit ")"⟩]) := by
  have hmain := check_file_with_trailing fname contents (suppOf contents)
  refine ⟨?_, ?_, ?_⟩
  · intro h1
    rw [check_file, hmain, h1]
    rfl
  · intro h0
    rw [check_file, hmain, h0]
    rfl
  · intro n hn h2
    rw [check_file, hmain, hn]
    match n, h2 with
    | (m + 2), _ => rfl

/-- Witness for C4 at the file `"foo"` (no trailing newline). -/
theorem claim_C4_witness :
    trailingViolsOf (check_file (lit "a.rs") (lit "foo")) =
      [⟨none, Kind.missingNl, lit "missing trailing newline"⟩] :=
  (claim_C4 (lit "a.rs") (lit "foo") (by decide)).2.1 (by decide)


theorem check_file_mem_of_scan (fname contents : List Char) (s : Supp) (v : Viol)
    (hv : v ∈ (scanLines fname (splitOnNl contents) 0 (initSt s)).errs) :
    v ∈ check_file_with fname contents s := by
  unfold check_file_with fileEndViols
  refine List.mem_append_right _ ?_
  exact List.mem_append_left _ (List.mem_append_left _ (List.mem_append_left _ hv))

theorem mem_lineNew_of_doctest (fname : List Char) (i : Nat) (l : List Char) (st : ScanState)
    (v : Viol) (hv : v ∈ doctestCheck i l) : v ∈ lineNew fname i l st := by
  unfold lineNew
  exact List.mem_append_left _ (List.mem_append_right _ hv)

theorem mem_lineNew_of_llvm (fname : List Char) (i : Nat) (l : List Char) (st : ScanState)
    (v : Viol) (hv : v ∈ llvmCheck fname i l) : v ∈ lineNew fname i l st := by
  unfold lineNew
  exact List.mem_append_right _ hv

/-- C7: in every checked file, every line ending in three-backticks-`ignore`
or three-backticks-`rust,ignore` yields the fixed unexplained-ignore-doctest
message verbatim at that line; the statement quantifies over all file
contents, so no `ignore-tidy-*` directive in the file can suppress it. -/
theorem claim_C7 (fname contents : List Char) (j : Nat) (line : List Char)
    (hget : (splitOnNl contents).get? j = some line)
    (hend : endsWithStr line (lit "```ignore") = true ∨
      endsWithStr line (lit "```rust,ignore") = true) :
    (⟨some (j + 1), Kind.doctest, UNEXPLAINED_IGNORE_DOCTEST_INFO⟩ : Viol) ∈
      check_file fname contents := by
  rw [check_file]
  apply check_file_mem_of_scan
  refine scan_mem_of_line fname (fun i l => doctestCheck i l)
    (fun i l st v hv => mem_lineNew_of_doctest fname i l st v hv)
    (splitOnNl contents) j 0 (initSt (suppOf contents)) line hget _ ?_
  rw [Nat.zero_add]
  show _ ∈ doctestCheck j line
  unfold doctestCheck
  rw [if_pos]
  · exact List.mem_singleton.mpr rfl
  · rcases hend with h | h <;> simp [h]

/-- Witness for C7 at the one-line file containing only the offending fence. -/
theorem claim_C7_witness :
    (⟨some 1, Kind.doctest, UNEXPLAINED_IGNORE_DOCTEST_INFO⟩ : Viol) ∈
      check_file (lit "a.rs") (lit "```ignore\n") :=
  claim_C7 (lit "a.rs") (lit "```ignore\n") 0 (lit "```ignore") (by decide)
    (Or.inl (by decide))

/-- C8 counterexample: a checked `.c` file whose only line contains
`llvm_unreachable` produces no violation at all, contradicting the claim that
all of `.c`, `.cpp`, `.h` are covered. -/
theorem claim_C8_counterexample :
    skipFile (lit "foo.c") = false ∧
    (splitOnNl (lit "llvm_unreachable\n")).get? 0 = some (lit "llvm_unreachable") ∧
    containsStr (lit "llvm_unreachable") (lit "llvm_unreachable") = true ∧
    check_file (lit "foo.c") (lit "llvm_unreachable\n") = [] := by
  refine ⟨by decide, by decide, by decide, by decide⟩

/-- C8 amended: only for files whose name ends in `.cpp` does a line
containing `llvm_unreachable` yield the hard violation with the fixed
remediation message at that line (quantified over all contents, hence not
suppressible by any directive). -/
theorem claim_C8 (fname contents : List Char) (j : Nat) (line : List Char)
    (hget : (splitOnNl contents).get? j = some line)
    (hcpp : endsWithStr fname (lit ".cpp") = true)
    (hcontain : containsStr line (lit "llvm_unreachable") = true) :
    (⟨some (j + 1), Kind.llvm, LLVM_UNREACHABLE_INFO⟩ : Viol) ∈ check_file fname contents := by
  rw [check_file]
  apply check_file_mem_of_scan
  refine scan_mem_of_line fname (fun i l => llvmCheck fname i l)
    (fun i l st v hv => mem_lineNew_of_llvm fname i l st v hv)
    (splitOnNl contents) j 0 (initSt (suppOf contents)) line hget _ ?_
  rw [Nat.zero_add]
  show _ ∈ llvmCheck fname j line
  unfold llvmCheck
  rw [if_pos]
  · exact List.mem_singleton.mpr rfl
  · rw [hcpp, hcontain]
    rfl

/-- Witness for the amended C8 at a one-line `.cpp` file. -/
theorem claim_C8_witness :
    (⟨some 1, Kind.llvm, LLVM_UNREACHABLE_INFO⟩ : Viol) ∈
      check_file (lit "foo.cpp") (lit "llvm_unreachable\n") :=
  claim_C8 (lit "foo.cpp") (lit "llvm_unreachable\n") 0 (lit "llvm_unreachable")
    (by decide) (by decide) (by decide)

theorem check_file_nil (fname : List Char) :
    check_file fname [] =
      [⟨none, Kind.emptyFile, lit "empty file"⟩,
       ⟨none, Kind.leadingNl, lit "leading newline"⟩] := by
  have ht : todoXxxCheck fname 0 [] = [] := by
    unfold todoXxxCheck
    split <;> rfl
  have hl : llvmCheck fname 0 [] = [] := by
    unfold llvmCheck
    rw [show containsStr [] (lit "llvm_unreachable") = false from rfl, Bool.and_false]
    rfl
  have hline : lineNew fname 0 [] (initSt (suppOf [])) = [] := by
    unfold lineNew
    rw [ht, hl]
    rfl
  have hscan : scanLines fname (splitOnNl []) 0 (initSt (suppOf [])) =
      ScanState.mk .Deny .Deny .Deny .Deny .Deny true 1 [] := by
    show checkLine fname 0 [] (initSt (suppOf [])) = _
    have h0 : checkLine fname 0 [] (initSt (suppOf [])) =
        ScanState.mk .Deny .Deny .Deny .Deny .Deny true 1
          ((initSt (suppOf [])).errs ++ lineNew fname 0 [] (initSt (suppOf []))) := rfl
    rw [h0, show (initSt (suppOf [])).errs = ([] : List Viol) from rfl,
      List.nil_append, hline]
  unfold check_file check_file_with
  rw [hscan]
  rfl

/-- C6: a zero-byte file gets exactly one empty-file violation and no
line-numbered violations at all. -/
theorem claim_C6 (fname : List Char) :
    violsOfKind Kind.emptyFile (check_file fname []) =
        [⟨none, Kind.emptyFile, lit "empty file"⟩] ∧
      ∀ v ∈ check_file fname [], v.line = none := by
  rw [check_file_nil]
  refine ⟨rfl, ?_⟩
  intro v hv
  rcases List.mem_cons.1 hv with h | h
  · rw [h]
  · rw [List.mem_singleton.1 h]

/-- Witness for C6 at a concrete file name. -/
theorem claim_C6_witness :
    violsOfKind Kind.emptyFile (check_file (lit "a.rs") []) =
        [⟨none, Kind.emptyFile, lit "empty file"⟩] ∧
      (Viol.mk none Kind.emptyFile (lit "empty file")).line = none :=
  ⟨(claim_C6 (lit "a.rs")).1, (claim_C6 (lit "a.rs")).2 _ (by decide)⟩

/-- C5 counterexample: the file `"foo\n\tbar\n\n"` produces two violations,
the tab violation at line 2 and a too-many-trailing-newlines violation, so it
does not produce exactly one violation. -/
theorem claim_C5_counterexample :
    check_file (lit "a.rs") (lit "foo\n\tbar\n\n") =
        [⟨some 2, Kind.tabChar, lit "tab character"⟩,
         ⟨none, Kind.tooManyNl 2, lit "too many trailing newlines (2)"⟩] ∧
      (check_file (lit "a.rs") (lit "foo\n\tbar\n\n")).length ≠ 1 := by
  refine ⟨by decide, by decide⟩

/-- C5 amended: checking the file `"foo\n\tbar\n\n"` (recognized extension,
not the checker's own file name) yields exactly two violations: the tab
violation at line 2 and the too-many-trailing-newlines violation with
count 2 (the content ends with two empty final segments). -/
theorem claim_C5_amended :
    skipFile (lit "a.rs") = false ∧ lit "a.rs" ≠ lit "style.rs" ∧
    check_file (lit "a.rs") (lit "foo\n\tbar\n\n") =
      [⟨some 2, Kind.tabChar, lit "tab character"⟩,
       ⟨none, Kind.tooManyNl 2, lit "too many trailing newlines (2)"⟩] := by
  refine ⟨by decide, by decide, by decide⟩


theorem long_line_is_ok_eq (line : List Char) : long_line_is_ok line = line_is_url line := by
  unfold long_line_is_ok
  cases h : line_is_url line <;> simp

/-- C1: for every scanned line, the line-length violation is emitted exactly
when the character count exceeds 100, the URL recognizer rejects the line and
the `linelength` suppression status is `Deny`; in particular a line of at
most 100 characters is never flagged for length. -/
theorem claim_C1 (fname : List Char) (i : Nat) (line : List Char) (st : ScanState) :
    (violsOfKind Kind.lineLength (lineNew fname i line st) =
      if COLS < line.length ∧ line_is_url line = false ∧ st.skipLength = Directive.Deny
      then [⟨some (i + 1), Kind.lineLength, lenMsg⟩] else []) ∧
    (line.length ≤ COLS → violsOfKind Kind.lineLength (lineNew fname i line st) = []) := by
  have hmain : violsOfKind Kind.lineLength (lineNew fname i line st) =
      if COLS < line.length ∧ line_is_url line = false ∧ st.skipLength = Directive.Deny
      then [⟨some (i + 1), Kind.lineLength, lenMsg⟩] else [] := by
    rw [violsOfKind_lineNew_length]
    unfold lengthCheck
    rw [long_line_is_ok_eq]
    cases hd : st.skipLength with
    | Deny =>
      by_cases h1 : COLS < line.length ∧ line_is_url line = false
      · rw [if_pos h1, if_pos ⟨h1.1, h1.2, rfl⟩]
        rfl
      · rw [if_neg h1, if_neg (fun hcon => h1 ⟨hcon.1, hcon.2.1⟩)]
    | Ignore b =>
      by_cases h1 : COLS < line.length ∧ line_is_url line = false
      · rw [if_pos h1, if_neg (fun hcon => by cases hcon.2.2)]
        rfl
      · rw [if_neg h1, if_neg (fun hcon => h1 ⟨hcon.1, hcon.2.1⟩)]
  refine ⟨hmain, fun hle => ?_⟩
  rw [hmain, if_neg (fun hcon => absurd hcon.1 (by omega))]

/-- Witness for C1: a short line is not flagged. -/
theorem claim_C1_witness :
    violsOfKind Kind.lineLength
      (lineNew (lit "a.rs") 0 (lit "short line")
        (initSt ⟨.Deny, .Deny, .Deny, .Deny, .Deny⟩)) = [] :=
  (claim_C1 (lit "a.rs") 0 (lit "short line")
    (initSt ⟨.Deny, .Deny, .Deny, .Deny, .Deny⟩)).2 (by decide)

theorem splitOnNl_ne_nil (c : List Char) : splitOnNl c ≠ [] := by
  induction c with
  | nil => simp [splitOnNl]
  | cons a rest ih =>
    unfold splitOnNl
    by_cases h : a = '\n'
    · simp [h]
    · rw [if_neg h]
      cases hr : splitOnNl rest with
      | nil => simp
      | cons l ls => simp

theorem splitOnNl_contains (c : List Char) (ch : Char) (h : ch ≠ '\n') :
    (splitOnNl c).any (fun l => l.contains ch) = c.contains ch := by
  induction c with
  | nil => rfl
  | cons a rest ih =>
    unfold splitOnNl
    by_cases ha : a = '\n'
    · rw [if_pos ha, List.any_cons]
      rw [show (([] : List Char).contains ch) = false from rfl, Bool.false_or, ih]
      subst ha
      rw [List.contains_cons]
      have hne : (ch == '\n') = false := by simp [h]
      rw [hne, Bool.false_or]
    · rw [if_neg ha]
      cases hr : splitOnNl rest with
      | nil => exact absurd hr (splitOnNl_ne_nil rest)
      | cons l ls =>
        rw [List.any_cons, List.contains_cons, List.contains_cons]
        have hih := ih
        rw [hr, List.any_cons] at hih
        rw [Bool.or_assoc, hih]

theorem violsOfKind_ite_singleton (k : Kind) (c : Prop) [Decidable c] (v : Viol)
    (h : v.kind ≠ k) : violsOfKind k (if c then [v] else []) = [] := by
  unfold violsOfKind
  apply filter_ite_singleton
  simp [h]

theorem violsOfKind_trailingNlViols (k : Kind) (n : Nat) (hk : isTrailingNlKind k = false) :
    violsOfKind k (trailingNlViols n) = [] := by
  refine violsOfKind_of_all_ne _ _ ?_
  intro v hv he
  have htr : isTrailingNlKind v.kind = true := by
    match n, hv with
    | 0, hv =>
      simp [trailingNlViols] at hv
      rw [hv]
      rfl
    | (m + 2), hv =>
      simp [trailingNlViols] at hv
      rw [hv]
      rfl
  rw [he, hk] at htr
  exact Bool.false_ne_true htr

theorem violsOfKind_auditOne (k : Kind) (d : Directive) (sk : SuppKind)
    (h : Kind.unusedIgnore sk ≠ k) : violsOfKind k (auditOne d sk) = [] := by
  refine violsOfKind_of_all_ne _ _ ?_
  intro v hv he
  rw [auditOne_kinds d sk v hv] at he
  exact h he

/-- C3: with a `// ignore-tidy-tab` (or `# ...`) directive present, a file
with at least one tab produces no tab violation and no unused-suppression
report for tab, while a file with no tab produces exactly one
ignoring-tab-characters-unnecessarily violation and no tab violation; and the
generic suppression protocol (`Deny` reports, `Ignore` swallows and flips to
used, end-of-file audit reports exactly the `Ignore(false)` statuses) holds
for every one of the five suppressible checks. -/
theorem claim_C3 (fname contents : List Char)
    (hdir : contains_ignore_directive contents (lit "tab") = Directive.Ignore false) :
    ((contents.contains '\t' = true →
        violsOfKind Kind.tabChar (check_file fname contents) = [] ∧
        violsOfKind (Kind.unusedIgnore SuppKind.tab) (check_file fname contents) = []) ∧
     (contents.contains '\t' = false →
        violsOfKind Kind.tabChar (check_file fname contents) = [] ∧
        violsOfKind (Kind.unusedIgnore SuppKind.tab) (check_file fname contents) =
          [auditViol SuppKind.tab])) ∧
    (∀ v : Viol, suppressible_tidy_err Directive.Deny v = (Directive.Deny, [v])) ∧
    (∀ (b : Bool) (v : Viol),
      suppressible_tidy_err (Directive.Ignore b) v = (Directive.Ignore true, [])) ∧
    (∀ k : SuppKind, auditOne (Directive.Ignore false) k = [auditViol k] ∧
      auditOne (Directive.Ignore true) k = [] ∧ auditOne Directive.Deny k = []) := by
  have hinit : (initSt (suppOf contents)).skipTab =
      contains_ignore_directive contents (lit "tab") := rfl
  rw [hdir] at hinit
  obtain ⟨hfin, herrs⟩ := scan_tab fname (splitOnNl contents) 0
    (initSt (suppOf contents)) false hinit
  rw [Bool.false_or] at hfin
  have herrs0 : violsOfKind Kind.tabChar
      (scanLines fname (splitOnNl contents) 0 (initSt (suppOf contents))).errs = [] := by
    rw [herrs]
    rfl
  have htabfilter : violsOfKind Kind.tabChar (check_file fname contents) = [] := by
    unfold check_file check_file_with fileEndViols
    rw [violsOfKind_append, violsOfKind_append, violsOfKind_append, violsOfKind_append,
      violsOfKind_append, violsOfKind_append, violsOfKind_append, violsOfKind_append]
    rw [herrs0]
    rw [violsOfKind_ite_singleton _ _ _ (by simp), violsOfKind_ite_singleton _ _ _ (by simp)]
    rw [violsOfKind_trailingNlViols Kind.tabChar _ rfl]
    rw [violsOfKind_auditOne _ _ SuppKind.cr (by simp),
      violsOfKind_auditOne _ _ SuppKind.tab (by simp),
      violsOfKind_auditOne _ _ SuppKind.linelength (by simp),
      violsOfKind_auditOne _ _ SuppKind.endWhitespace (by simp),
      violsOfKind_auditOne _ _ SuppKind.copyright (by simp)]
    simp
  have hanytab : (splitOnNl contents).any (fun l => l.contains '\t') =
      contents.contains '\t' := splitOnNl_contains contents '\t' (by decide)
  have hunused : ∀ res : List Viol,
      auditOne (scanLines fname (splitOnNl contents) 0
          (initSt (suppOf contents))).skipTab SuppKind.tab = res →
      violsOfKind (Kind.unusedIgnore SuppKind.tab) (check_file fname contents) =
        violsOfKind (Kind.unusedIgnore SuppKind.tab) res := by
    intro res hres
    unfold check_file check_file_with fileEndViols
    rw [violsOfKind_append, violsOfKind_append, violsOfKind_append, violsOfKind_append,
      violsOfKind_append, violsOfKind_append, violsOfKind_append, violsOfKind_append]
    rw [scan_errs_filter_not_line (Kind.unusedIgnore SuppKind.tab) rfl]
    rw [violsOfKind_ite_singleton _ _ _ (by simp), violsOfKind_ite_singleton _ _ _ (by simp)]
    rw [violsOfKind_trailingNlViols (Kind.unusedIgnore SuppKind.tab) _ rfl]
    rw [violsOfKind_auditOne _ _ SuppKind.cr (by simp),
      violsOfKind_auditOne _ _ SuppKind.linelength (by simp),
      violsOfKind_auditOne _ _ SuppKind.endWhitespace (by simp),
      violsOfKind_auditOne _ _ SuppKind.copyright (by simp)]
    rw [hres]
    simp
    rfl
  refine ⟨⟨?_, ?_⟩, fun v => rfl, fun b v => rfl,
    fun k => ⟨rfl, rfl, rfl⟩⟩
  · intro htab
    refine ⟨htabfilter, ?_⟩
    have haud : auditOne (scanLines fname (splitOnNl contents) 0
        (initSt (suppOf contents))).skipTab SuppKind.tab = [] := by
      rw [hfin, hanytab, htab]
      rfl
    rw [hunused [] haud]
    rfl
  · intro htab
    refine ⟨htabfilter, ?_⟩
    have haud : auditOne (scanLines fname (splitOnNl contents) 0
        (initSt (suppOf contents))).skipTab SuppKind.tab = [auditViol SuppKind.tab] := by
      rw [hfin, hanytab, htab]
      rfl
    rw [hunused [auditViol SuppKind.tab] haud]
    rfl

/-- Witness for C3 at a file whose only content is the directive itself. -/
theorem claim_C3_witness :
    violsOfKind (Kind.unusedIgnore SuppKind.tab)
      (check_file (lit "a.rs") (lit "// ignore-tidy-tab\n")) = [auditViol SuppKind.tab] :=
  (((claim_C3 (lit "a.rs") (lit "// ignore-tidy-tab\n") (by decide)).1).2 (by decide)).2


theorem walkStep_true (f : SrcFile) : walkStep true f = true := by
  unfold walkStep
  split
  · rfl
  · rfl

theorem check_true (files : List SrcFile) : check files true = true := by
  induction files with
  | nil => rfl
  | cons f fs ih =>
    show List.foldl walkStep (walkStep true f) fs = true
    rw [walkStep_true]
    exact ih

theorem check_true_of_mem :
    ∀ (files : List SrcFile) (bad : Bool) (f : SrcFile), f ∈ files →
      skipFile f.name = false → check_file f.name f.contents ≠ [] →
      check files bad = true := by
  intro files
  induction files with
  | nil => intro bad f h; simp at h
  | cons g fs ih =>
    intro bad f hmem hskip hne
    rcases List.mem_cons.1 hmem with h | h
    · subst h
      show List.foldl walkStep (walkStep bad f) fs = true
      have hemp : (check_file f.name f.contents).isEmpty = false := by
        cases hc : (check_file f.name f.contents).isEmpty
        · rfl
        · rw [List.isEmpty_iff] at hc
          exact absurd hc hne
      have hw : walkStep bad f = true := by
        unfold walkStep
        rw [if_neg (by simp [hskip]), hemp]
        simp
      rw [hw]
      exact check_true fs
    · show List.foldl walkStep (walkStep bad g) fs = true
      exact ih (walkStep bad g) f h hskip hne

/-- C9: the global `bad` flag is monotonic: it stays `true` once set over any
run and any continuation of a run, every reported violation of a walked,
non-skipped file forces it to `true`, and runs compose so no step can reset
it. -/
theorem claim_C9 (files : List SrcFile) (bad : Bool) :
    (check files true = true) ∧
    (bad = true → check files bad = true) ∧
    (∀ more : List SrcFile, check (files ++ more) bad = check more (check files bad)) ∧
    (check files bad = true → ∀ more : List SrcFile, check (files ++ more) bad = true) ∧
    (∀ f : SrcFile, f ∈ files → skipFile f.name = false →
      check_file f.name f.contents ≠ [] → check files bad = true) := by
  have hcomp : ∀ more : List SrcFile,
      check (files ++ more) bad = check more (check files bad) := by
    intro more
    unfold check
    exact List.foldl_append _ _ _ _
  refine ⟨check_true files, ?_, hcomp, ?_, ?_⟩
  · intro h
    subst h
    exact check_true files
  · intro h more
    rw [hcomp more, h]
    exact check_true more
  · intro f hmem hskip hne
    exact check_true_of_mem files bad f hmem hskip hne

/-- Witness for C9: one violating file sets the flag from `false` to `true`. -/
theorem claim_C9_witness :
    check [SrcFile.mk (lit "a.rs") (lit "x")] false = true :=
  (claim_C9 [SrcFile.mk (lit "a.rs") (lit "x")] false).2.2.2.2
    (SrcFile.mk (lit "a.rs") (lit "x")) (List.mem_singleton.mpr rfl)
    (by decide) (by decide)


/-- Modelled from the spec (§4.1): a line-comment marker token. -/
def commentMarker (t : List Char) : Prop :=
  t = lit "//" ∨ t = lit "///" ∨ t = lit "//!"

/-- Modelled from the spec (§4.1): a Markdown reference-style link label token
(starts with `[`, ends with `]:`, length ≥ 4; internal whitespace is excluded
by tokenization itself, since tokens are maximal whitespace-free runs). -/
def labelToken (t : List Char) : Prop :=
  4 ≤ t.length ∧ startsWithStr t (lit "[") = true ∧ endsWithStr t (lit "]:") = true

/-- Modelled from the spec (§4.1): a URL token. -/
def httpToken (t : List Char) : Prop :=
  startsWithStr t (lit "http://") = true ∨ startsWithStr t (lit "https://") = true

/-- Modelled from the spec (§4.1): the whole-line grammar — a comment marker,
optionally one link label, then exactly one URL token (relative `../` URLs
only after a label), and nothing else. -/
def urlLineGrammar (toks : List (List Char)) : Prop :=
  (∃ m u, toks = [m, u] ∧ commentMarker m ∧ httpToken u) ∨
  (∃ m l u, toks = [m, l, u] ∧ commentMarker m ∧ labelToken l ∧
    (httpToken u ∨ startsWithStr u (lit "../") = true))

theorem go_cons (st : LIUState) (t : List Char) (ts : List (List Char)) :
    line_is_url_go st (t :: ts) =
      match liuStep st t with
      | none => false
      | some st2 => line_is_url_go st2 ts := rfl

theorem label_not_http (t : List Char) (h1 : startsWithStr t (lit "[") = true)
    (h2 : httpToken t) : False := by
  have h1p : ('[' :: []) <+: t := by
    rw [startsWithStr] at h1
    exact List.isPrefixOf_iff_prefix.1 h1
  obtain ⟨r1, hr1⟩ := h1p
  rcases h2 with h2 | h2
  · have h2p : ('h' :: lit "ttp://") <+: t := by
      rw [startsWithStr] at h2
      exact List.isPrefixOf_iff_prefix.1 h2
    obtain ⟨r2, hr2⟩ := h2p
    have hcontra := hr1.trans hr2.symm
    simp at hcontra
  · have h2p : ('h' :: lit "ttps://") <+: t := by
      rw [startsWithStr] at h2
      exact List.isPrefixOf_iff_prefix.1 h2
    obtain ⟨r2, hr2⟩ := h2p
    have hcontra := hr1.trans hr2.symm
    simp at hcontra

theorem go_end (toks : List (List Char)) :
    line_is_url_go LIUState.EXP_END toks = true ↔ toks = [] := by
  cases toks with
  | nil => simp [line_is_url_go]
  | cons t ts =>
    rw [go_cons]
    simp [liuStep]

theorem go_url (toks : List (List Char)) :
    line_is_url_go LIUState.EXP_URL toks = true ↔
      ∃ u, toks = [u] ∧ (httpToken u ∨ startsWithStr u (lit "../") = true) := by
  cases toks with
  | nil => simp [line_is_url_go]
  | cons t ts =>
    by_cases h : startsWithStr t (lit "http://") = true ∨
        startsWithStr t (lit "https://") = true ∨ startsWithStr t (lit "../") = true
    · have hstep : liuStep LIUState.EXP_URL t = some LIUState.EXP_END := by
        show (if startsWithStr t (lit "http://") = true ∨
            startsWithStr t (lit "https://") = true ∨ startsWithStr t (lit "../") = true
          then some LIUState.EXP_END else none) = some LIUState.EXP_END
        rw [if_pos h]
      rw [go_cons, hstep, go_end]
      constructor
      · intro hts
        subst hts
        refine ⟨t, rfl, ?_⟩
        rcases h with h | h | h
        · exact Or.inl (Or.inl h)
        · exact Or.inl (Or.inr h)
        · exact Or.inr h
      · rintro ⟨u, he, hu⟩
        injection he with h1 h2
    · have hstep : liuStep LIUState.EXP_URL t = none := by
        show (if startsWithStr t (lit "http://") = true ∨
            startsWithStr t (lit "https://") = true ∨ startsWithStr t (lit "../") = true
          then some LIUState.EXP_END else none) = none
        rw [if_neg h]
      rw [go_cons, hstep]
      constructor
      · intro hf
        exact absurd hf (by simp)
      · rintro ⟨u, he, hu⟩
        injection he with h1 h2
        subst h1
        refine absurd ?_ h
        rcases hu with hu | hu
        · rcases hu with hu | hu
          · exact Or.inl hu
          · exact Or.inr (Or.inl hu)
        · exact Or.inr (Or.inr hu)

theorem go_lbl (toks : List (List Char)) :
    line_is_url_go LIUState.EXP_LINK_LABEL_OR_URL toks = true ↔
      (∃ u, toks = [u] ∧ httpToken u) ∨
      (∃ l u, toks = [l, u] ∧ labelToken l ∧
        (httpToken u ∨ startsWithStr u (lit "../") = true)) := by
  cases toks with
  | nil => simp [line_is_url_go]
  | cons t ts =>
    by_cases hlab : 4 ≤ t.length ∧ startsWithStr t (lit "[") = true ∧
        endsWithStr t (lit "]:") = true
    · have hstep : liuStep LIUState.EXP_LINK_LABEL_OR_URL t = some LIUState.EXP_URL := by
        show (if 4 ≤ t.length ∧ startsWithStr t (lit "[") = true ∧
              endsWithStr t (lit "]:") = true then some LIUState.EXP_URL
          else if startsWithStr t (lit "http://") = true ∨
              startsWithStr t (lit "https://") = true then some LIUState.EXP_END
          else none) = some LIUState.EXP_URL
        rw [if_pos hlab]
      rw [go_cons, hstep, go_url]
      constructor
      · rintro ⟨u, hts, hu⟩
        subst hts
        exact Or.inr ⟨t, u, rfl, hlab, hu⟩
      · rintro (⟨u, he, hu⟩ | ⟨l, u, he, hl, hu⟩)
        · injection he with h1 h2
          subst h1
          exact absurd (label_not_http t hlab.2.1 hu) (fun hf => hf)
        · injection he with h1 h2
          subst h2
          exact ⟨u, rfl, hu⟩
    · by_cases hhttp : startsWithStr t (lit "http://") = true ∨
          startsWithStr t (lit "https://") = true
      · have hstep : liuStep LIUState.EXP_LINK_LABEL_OR_URL t = some LIUState.EXP_END := by
          show (if 4 ≤ t.length ∧ startsWithStr t (lit "[") = true ∧
                endsWithStr t (lit "]:") = true then some LIUState.EXP_URL
            else if startsWithStr t (lit "http://") = true ∨
                startsWithStr t (lit "https://") = true then some LIUState.EXP_END
            else none) = some LIUState.EXP_END
          rw [if_neg hlab, if_pos hhttp]
        rw [go_cons, hstep, go_end]
        constructor
        · intro hts
          subst hts
          exact Or.inl ⟨t, rfl, hhttp⟩
        · rintro (⟨u, he, hu⟩ | ⟨l, u, he, hl, hu⟩)
          · injection he with h1 h2
          · injection he with h1 h2
            subst h1
            exact absurd hl hlab
      · have hstep : liuStep LIUState.EXP_LINK_LABEL_OR_URL t = none := by
          show (if 4 ≤ t.length ∧ startsWithStr t (lit "[") = true ∧
                endsWithStr t (lit "]:") = true then some LIUState.EXP_URL
            else if startsWithStr t (lit "http://") = true ∨
                startsWithStr t (lit "https://") = true then some LIUState.EXP_END
            else none) = none
          rw [if_neg hlab, if_neg hhttp]
        rw [go_cons, hstep]
        constructor
        · intro hf
          exact absurd hf (by simp)
        · rintro (⟨u, he, hu⟩ | ⟨l, u, he, hl, hu⟩)
          · injection he with h1 h2
            subst h1
            exact absurd hu hhttp
          · injection he with h1 h2
            subst h1
            exact absurd hl hlab

theorem go_start_grammar (toks : List (List Char)) :
    line_is_url_go LIUState.EXP_COMMENT_START toks = true ↔ urlLineGrammar toks := by
  cases toks with
  | nil => simp [line_is_url_go, urlLineGrammar]
  | cons t ts =>
    by_cases hm : t = lit "//" ∨ t = lit "///" ∨ t = lit "//!"
    · have hstep : liuStep LIUState.EXP_COMMENT_START t =
          some LIUState.EXP_LINK_LABEL_OR_URL := by
        show (if t = lit "//" ∨ t = lit "///" ∨ t = lit "//!"
          then some LIUState.EXP_LINK_LABEL_OR_URL else none) =
            some LIUState.EXP_LINK_LABEL_OR_URL
        rw [if_pos hm]
      rw [go_cons, hstep, go_lbl]
      constructor
      · rintro (⟨u, hts, hu⟩ | ⟨l, u, hts, hl, hu⟩)
        · exact Or.inl ⟨t, u, by rw [hts], hm, hu⟩
        · exact Or.inr ⟨t, l, u, by rw [hts], hm, hl, hu⟩
      · rintro (⟨m, u, he, hmc, hu⟩ | ⟨m, l, u, he, hmc, hl, hu⟩)
        · injection he with h1 h2
          subst h2
          exact Or.inl ⟨u, rfl, hu⟩
        · injection he with h1 h2
          subst h2
          exact Or.inr ⟨l, u, rfl, hl, hu⟩
    · have hstep : liuStep LIUState.EXP_COMMENT_START t = none := by
        show (if t = lit "//" ∨ t = lit "///" ∨ t = lit "//!"
          then some LIUState.EXP_LINK_LABEL_OR_URL else none) = none
        rw [if_neg hm]
      rw [go_cons, hstep]
      constructor
      · intro hf
        exact absurd hf (by simp)
      · rintro (⟨m, u, he, hmc, hu⟩ | ⟨m, l, u, he, hmc, hl, hu⟩)
        · injection he with h1 h2
          subst h1
          exact absurd hmc hm
        · injection he with h1 h2
          subst h1
          exact absurd hmc hm

/-- An over-100-character comment line with prose between the marker and the
URL (hence rejected by the recognizer). -/
def urlProseLine : List Char :=
  lit "// see http://example.com and also more text " ++ List.replicate 60 'x'

/-- C2: the URL-line recognizer accepts a line exactly when its
whitespace-separated tokens are a comment marker, optionally one link-label
token, then exactly one URL token (relative URLs only after a label) and
nothing further; and in particular an over-100-character comment line with
prose after the URL is rejected and flagged for length. -/
theorem claim_C2 :
    (∀ line : List Char, line_is_url line = true ↔ urlLineGrammar (splitWhitespace line)) ∧
    COLS < urlProseLine.length ∧ line_is_url urlProseLine = false ∧
    violsOfKind Kind.lineLength
      (lineNew (lit "a.rs") 0 urlProseLine (initSt ⟨.Deny, .Deny, .Deny, .Deny, .Deny⟩)) =
      [⟨some 1, Kind.lineLength, lenMsg⟩] := by
  refine ⟨fun line => go_start_grammar (splitWhitespace line), by decide, by decide, ?_⟩
  rw [(claim_C1 (lit "a.rs") 0 urlProseLine
    (initSt ⟨.Deny, .Deny, .Deny, .Deny, .Deny⟩)).1]
  rw [if_pos ⟨by decide, by decide, rfl⟩]


/-- The violation kind of each suppressible check. -/
def suppViolKind : SuppKind → Kind
  | .cr => .crChar
  | .tab => .tabChar
  | .linelength => .lineLength
  | .endWhitespace => .endWs
  | .copyright => .copyright

/-- Replace one of the five suppression statuses. -/
def setSupp (X : SuppKind) (d : Directive) (s : Supp) : Supp :=
  match X with
  | .cr => { s with cr := d }
  | .tab => { s with tab := d }
  | .linelength => { s with linelength := d }
  | .endWhitespace => { s with endWhitespace := d }
  | .copyright => { s with copyright := d }

/-- The violations NOT belonging to check `X`: everything except `X`'s own
rule violations and `X`'s unused-suppression report. -/
def violsNotOf (X : SuppKind) (vs : List Viol) : List Viol :=
  vs.filter (fun v =>
    !(decide (v.kind = suppViolKind X) || decide (v.kind = Kind.unusedIgnore X)))

theorem violsNotOf_append (X : SuppKind) (a b : List Viol) :
    violsNotOf X (a ++ b) = violsNotOf X a ++ violsNotOf X b := by
  unfold violsNotOf
  exact List.filter_append _ _

theorem violsNotOf_crCheck (s : Directive) (i : Nat) (line : List Char) :
    violsNotOf SuppKind.cr (crCheck s i line).2 = [] := by
  unfold violsNotOf
  refine List.filter_eq_nil_iff.mpr ?_
  intro v hv
  rw [crCheck_kinds _ _ _ v hv]
  simp [suppViolKind]

theorem violsNotOf_tabCheck (s : Directive) (i : Nat) (line : List Char) :
    violsNotOf SuppKind.tab (tabCheck s i line).2 = [] := by
  unfold violsNotOf
  refine List.filter_eq_nil_iff.mpr ?_
  intro v hv
  rw [tabCheck_kinds _ _ _ v hv]
  simp [suppViolKind]

theorem violsNotOf_lengthCheck (s : Directive) (i : Nat) (line : List Char) :
    violsNotOf SuppKind.linelength (lengthCheck s i line).2 = [] := by
  unfold violsNotOf
  refine List.filter_eq_nil_iff.mpr ?_
  intro v hv
  rw [lengthCheck_kinds _ _ _ v hv]
  simp [suppViolKind]

theorem violsNotOf_endWsCheck (s : Directive) (i : Nat) (line : List Char) :
    violsNotOf SuppKind.endWhitespace (endWsCheck s i line).2 = [] := by
  unfold violsNotOf
  refine List.filter_eq_nil_iff.mpr ?_
  intro v hv
  rw [endWsCheck_kinds _ _ _ v hv]
  simp [suppViolKind]

theorem violsNotOf_copyrightCheck (s : Directive) (i : Nat) (line : List Char) :
    violsNotOf SuppKind.copyright (copyrightCheck s i line).2 = [] := by
  unfold violsNotOf
  refine List.filter_eq_nil_iff.mpr ?_
  intro v hv
  rw [copyrightCheck_kinds _ _ _ v hv]
  simp [suppViolKind]

theorem violsNotOf_auditOne_self (X : SuppKind) (d : Directive) :
    violsNotOf X (auditOne d X) = [] := by
  unfold violsNotOf
  refine List.filter_eq_nil_iff.mpr ?_
  intro v hv
  rw [auditOne_kinds d X v hv]
  simp

/-- Two scan states that may differ only in check `X`'s suppression status and
in `X`'s own reported violations. -/
def agreeOff (X : SuppKind) (st₁ st₂ : ScanState) : Prop :=
  (X ≠ SuppKind.cr → st₁.skipCr = st₂.skipCr) ∧
  (X ≠ SuppKind.tab → st₁.skipTab = st₂.skipTab) ∧
  (X ≠ SuppKind.linelength → st₁.skipLength = st₂.skipLength) ∧
  (X ≠ SuppKind.endWhitespace → st₁.skipEndWs = st₂.skipEndWs) ∧
  (X ≠ SuppKind.copyright → st₁.skipCopyright = st₂.skipCopyright) ∧
  st₁.leadingNewLines = st₂.leadingNewLines ∧
  st₁.trailingNewLines = st₂.trailingNewLines ∧
  violsNotOf X st₁.errs = violsNotOf X st₂.errs

theorem violsNotOf_lineNew_cr (fname : List Char) (i : Nat) (line : List Char)
    (st₁ st₂ : ScanState) (hTab : st₁.skipTab = st₂.skipTab)
    (hLen : st₁.skipLength = st₂.skipLength) (hEw : st₁.skipEndWs = st₂.skipEndWs)
    (hCp : st₁.skipCopyright = st₂.skipCopyright) :
    violsNotOf SuppKind.cr (lineNew fname i line st₁) =
      violsNotOf SuppKind.cr (lineNew fname i line st₂) := by
  unfold lineNew
  rw [hTab, hLen, hEw, hCp]
  simp only [violsNotOf_append]
  rw [violsNotOf_crCheck, violsNotOf_crCheck]

theorem violsNotOf_lineNew_tab (fname : List Char) (i : Nat) (line : List Char)
    (st₁ st₂ : ScanState) (hCr : st₁.skipCr = st₂.skipCr)
    (hLen : st₁.skipLength = st₂.skipLength) (hEw : st₁.skipEndWs = st₂.skipEndWs)
    (hCp : st₁.skipCopyright = st₂.skipCopyright) :
    violsNotOf SuppKind.tab (lineNew fname i line st₁) =
      violsNotOf SuppKind.tab (lineNew fname i line st₂) := by
  unfold lineNew
  rw [hCr, hLen, hEw, hCp]
  simp only [violsNotOf_append]
  rw [violsNotOf_tabCheck, violsNotOf_tabCheck]

theorem violsNotOf_lineNew_linelength (fname : List Char) (i : Nat) (line : List Char)
    (st₁ st₂ : ScanState) (hCr : st₁.skipCr = st₂.skipCr)
    (hTab : st₁.skipTab = st₂.skipTab) (hEw : st₁.skipEndWs = st₂.skipEndWs)
    (hCp : st₁.skipCopyright = st₂.skipCopyright) :
    violsNotOf SuppKind.linelength (lineNew fname i line st₁) =
      violsNotOf SuppKind.linelength (lineNew fname i line st₂) := by
  unfold lineNew
  rw [hCr, hTab, hEw, hCp]
  simp only [violsNotOf_append]
  rw [violsNotOf_lengthCheck, violsNotOf_lengthCheck]

theorem violsNotOf_lineNew_endWhitespace (fname : List Char) (i : Nat) (line : List Char)
    (st₁ st₂ : ScanState) (hCr : st₁.skipCr = st₂.skipCr)
    (hTab : st₁.skipTab = st₂.skipTab) (hLen : st₁.skipLength = st₂.skipLength)
    (hCp : st₁.skipCopyright = st₂.skipCopyright) :
    violsNotOf SuppKind.endWhitespace (lineNew fname i line st₁) =
      violsNotOf SuppKind.endWhitespace (lineNew fname i line st₂) := by
  unfold lineNew
  rw [hCr, hTab, hLen, hCp]
  simp only [violsNotOf_append]
  rw [violsNotOf_endWsCheck, violsNotOf_endWsCheck]

theorem violsNotOf_lineNew_copyright (fname : List Char) (i : Nat) (line : List Char)
    (st₁ st₂ : ScanState) (hCr : st₁.skipCr = st₂.skipCr)
    (hTab : st₁.skipTab = st₂.skipTab) (hLen : st₁.skipLength = st₂.skipLength)
    (hEw : st₁.skipEndWs = st₂.skipEndWs) :
    violsNotOf SuppKind.copyright (lineNew fname i line st₁) =
      violsNotOf SuppKind.copyright (lineNew fname i line st₂) := by
  unfold lineNew
  rw [hCr, hTab, hLen, hEw]
  simp only [violsNotOf_append]
  rw [violsNotOf_copyrightCheck, violsNotOf_copyrightCheck]

theorem checkLine_frame (X : SuppKind) (fname : List Char) (i : Nat) (line : List Char)
    (st₁ st₂ : ScanState) (h : agreeOff X st₁ st₂) :
    agreeOff X (checkLine fname i line st₁) (checkLine fname i line st₂) := by
  obtain ⟨h1, h2, h3, h4, h5, h6, h7, h8⟩ := h
  cases X with
  | cr =>
    have hTab := h2 (by decide)
    have hLen := h3 (by decide)
    have hEw := h4 (by decide)
    have hCp := h5 (by decide)
    refine ⟨fun hc => absurd rfl hc, ?_, ?_, ?_, ?_, ?_, ?_, ?_⟩
    · intro _
      rw [checkLine_skipTab, checkLine_skipTab, hTab]
    · intro _
      rw [checkLine_skipLength, checkLine_skipLength, hLen]
    · intro _
      rw [checkLine_skipEndWs, checkLine_skipEndWs, hEw]
    · intro _
      rw [checkLine_skipCopyright, checkLine_skipCopyright, hCp]
    · rw [checkLine_lead, checkLine_lead, h6, h7]
    · rw [checkLine_trail, checkLine_trail, h6, h7]
    · rw [checkLine_errs, checkLine_errs, violsNotOf_append, violsNotOf_append, h8,
        violsNotOf_lineNew_cr fname i line st₁ st₂ hTab hLen hEw hCp]
  | tab =>
    have hCr := h1 (by decide)
    have hLen := h3 (by decide)
    have hEw := h4 (by decide)
    have hCp := h5 (by decide)
    refine ⟨?_, fun hc => absurd rfl hc, ?_, ?_, ?_, ?_, ?_, ?_⟩
    · intro _
      rw [checkLine_skipCr, checkLine_skipCr, hCr]
    · intro _
      rw [checkLine_skipLength, checkLine_skipLength, hLen]
    · intro _
      rw [checkLine_skipEndWs, checkLine_skipEndWs, hEw]
    · intro _
      rw [checkLine_skipCopyright, checkLine_skipCopyright, hCp]
    · rw [checkLine_lead, checkLine_lead, h6, h7]
    · rw [checkLine_trail, checkLine_trail, h6, h7]
    · rw [checkLine_errs, checkLine_errs, violsNotOf_append, violsNotOf_append, h8,
        violsNotOf_lineNew_tab fname i line st₁ st₂ hCr hLen hEw hCp]
  | linelength =>
    have hCr := h1 (by decide)
    have hTab := h2 (by decide)
    have hEw := h4 (by decide)
    have hCp := h5 (by decide)
    refine ⟨?_, ?_, fun hc => absurd rfl hc, ?_, ?_, ?_, ?_, ?_⟩
    · intro _
      rw [checkLine_skipCr, checkLine_skipCr, hCr]
    · intro _
      rw [checkLine_skipTab, checkLine_skipTab, hTab]
    · intro _
      rw [checkLine_skipEndWs, checkLine_skipEndWs, hEw]
    · intro _
      rw [checkLine_skipCopyright, checkLine_skipCopyright, hCp]
    · rw [checkLine_lead, checkLine_lead, h6, h7]
    · rw [checkLine_trail, checkLine_trail, h6, h7]
    · rw [checkLine_errs, checkLine_errs, violsNotOf_append, violsNotOf_append, h8,
        violsNotOf_lineNew_linelength fname i line st₁ st₂ hCr hTab hEw hCp]
  | endWhitespace =>
    have hCr := h1 (by decide)
    have hTab := h2 (by decide)
    have hLen := h3 (by decide)
    have hCp := h5 (by decide)
    refine ⟨?_, ?_, ?_, fun hc => absurd rfl hc, ?_, ?_, ?_, ?_⟩
    · intro _
      rw [checkLine_skipCr, checkLine_skipCr, hCr]
    · intro _
      rw [checkLine_skipTab, checkLine_skipTab, hTab]
    · intro _
      rw [checkLine_skipLength, checkLine_skipLength, hLen]
    · intro _
      rw [checkLine_skipCopyright, checkLine_skipCopyright, hCp]
    · rw [checkLine_lead, checkLine_lead, h6, h7]
    · rw [checkLine_trail, checkLine_trail, h6, h7]
    · rw [checkLine_errs, checkLine_errs, violsNotOf_append, violsNotOf_append, h8,
        violsNotOf_lineNew_endWhitespace fname i line st₁ st₂ hCr hTab hLen hCp]
  | copyright =>
    have hCr := h1 (by decide)
    have hTab := h2 (by decide)
    have hLen := h3 (by decide)
    have hEw := h4 (by decide)
    refine ⟨?_, ?_, ?_, ?_, fun hc => absurd rfl hc, ?_, ?_, ?_⟩
    · intro _
      rw [checkLine_skipCr, checkLine_skipCr, hCr]
    · intro _
      rw [checkLine_skipTab, checkLine_skipTab, hTab]
    · intro _
      rw [checkLine_skipLength, checkLine_skipLength, hLen]
    · intro _
      rw [checkLine_skipEndWs, checkLine_skipEndWs, hEw]
    · rw [checkLine_lead, checkLine_lead, h6, h7]
    · rw [checkLine_trail, checkLine_trail, h6, h7]
    · rw [checkLine_errs, checkLine_errs, violsNotOf_append, violsNotOf_append, h8,
        violsNotOf_lineNew_copyright fname i line st₁ st₂ hCr hTab hLen hEw]

theorem scan_frame (X : SuppKind) (fname : List Char) :
    ∀ (ls : List (List Char)) (i : Nat) (st₁ st₂ : ScanState), agreeOff X st₁ st₂ →
      agreeOff X (scanLines fname ls i st₁) (scanLines fname ls i st₂) := by
  intro ls
  induction ls with
  | nil => intro i st₁ st₂ h; exact h
  | cons l ls ih =>
    intro i st₁ st₂ h
    exact ih (i + 1) _ _ (checkLine_frame X fname i l st₁ st₂ h)


/-- C10: the five suppression statuses are independent per check — changing
check `X`'s initial suppression status (which is exactly what adding an
`ignore-tidy-X` directive initializes) leaves the violations of every other
rule, including the hard per-line rules and the file-level reports, exactly
the same; only `X`'s own violations and `X`'s unused-suppression audit can
change. -/
theorem claim_C10 (fname contents : List Char) (X : SuppKind) (d : Directive) (s : Supp) :
    violsNotOf X (check_file_with fname contents (setSupp X d s)) =
      violsNotOf X (check_file_with fname contents s) := by
  have hinit : agreeOff X (initSt (setSupp X d s)) (initSt s) := by
    cases X <;> refine ⟨?_, ?_, ?_, ?_, ?_, rfl, rfl, rfl⟩ <;> intro hY <;>
      first
        | rfl
        | exact absurd rfl hY
  obtain ⟨hCr, hTab, hLen, hEw, hCp, hLead, hTrail, hErrs⟩ :=
    scan_frame X fname (splitOnNl contents) 0 _ _ hinit
  unfold check_file_with fileEndViols
  simp only [violsNotOf_append]
  rw [hErrs, hLead, hTrail]
  cases X with
  | cr =>
    rw [hTab (by decide), hLen (by decide), hEw (by decide), hCp (by decide),
      violsNotOf_auditOne_self, violsNotOf_auditOne_self]
  | tab =>
    rw [hCr (by decide), hLen (by decide), hEw (by decide), hCp (by decide),
      violsNotOf_auditOne_self, violsNotOf_auditOne_self]
  | linelength =>
    rw [hCr (by decide), hTab (by decide), hEw (by decide), hCp (by decide),
      violsNotOf_auditOne_self, violsNotOf_auditOne_self]
  | endWhitespace =>
    rw [hCr (by decide), hTab (by decide), hLen (by decide), hCp (by decide),
      violsNotOf_auditOne_self, violsNotOf_auditOne_self]
  | copyright =>
    rw [hCr (by decide), hTab (by decide), hLen (by decide), hEw (by decide),
      violsNotOf_auditOne_self, violsNotOf_auditOne_self]

end Style
